import Mathlib

/-!
A verification development for the chess HTTP backend
(`src/chess-api-backend.py`).  The Python program is shallowly embedded:

* the external chess-rules library (`python-chess`) is an opaque
  collaborator, modelled by a record of operations `ChessLib B` over an
  abstract board type `B`;
* the external engines (the Stockfish subprocess and the Lichess cloud
  service) are modelled by oracle values describing the raw scores and
  principal variations they return on one request; a `none` oracle stands
  for a subprocess/network failure (the `except` branches of the source);
* the global `games` dict is an association list threaded through the
  handlers, which become pure functions from a store and a request to a
  new store and a response value;
* Python's stable `list.sort(key=..., reverse=True)` is modelled with
  `List.insertionSort` over the descending order on evaluations
  (all stable sorts of a total preorder agree, so this is exact).

Evaluation scores are Python floats in the dataclass declaration but every
value the program ever stores in them is an integer (centipawns or the
±10000 mate sentinel), so they are embedded as `Int`.
-/

namespace ChessAPI

/-- A raw engine score as carried by `python-chess` score objects:
either a mate distance or a centipawn value, relative to some side. -/
structure RawScore where
  isMate : Bool
  mate : Int
  cp : Int
deriving Repr, DecidableEq

/-- The `MoveEvaluation` dataclass of the source (lines 36-45). -/
structure MoveEvaluation where
  move : String
  evaluation : Int
  is_mate : Bool
  mate_in : Option Int
  is_capture : Bool
  piece : String
  from_square : String
  to_square : String
deriving Repr, DecidableEq

/-- The `EngineAnalysis` dataclass of the source (lines 47-54).
`best_move` is an `Option` because `analyze_position_chesscom` stores
`None` there when it found no top moves (line 1080). -/
structure EngineAnalysis where
  best_move : Option String
  top_moves : List MoveEvaluation
  all_legal_moves : List MoveEvaluation
  capture_moves : List MoveEvaluation
  position_evaluation : Int
  fen : String
deriving Repr, DecidableEq

/-- The operations of the external chess-rules library that the backend
consumes.  `pieceAt mv` stands for
`board.piece_at(move.from_square).symbol()` for the move parsed from the
UCI string `mv`; the from/to square names of a parsed UCI move are the
first and second two-character groups of the UCI string, so they are
recovered from the string directly.  `parseUci m` is true when
`chess.Move.from_uci(m)` succeeds. -/
structure ChessLib (B : Type) where
  initial : B
  fromFen : String → B
  fen : B → String
  turnWhite : B → Bool
  legalMoves : B → List String
  isCapture : B → String → Bool
  pieceAt : B → String → String
  push : B → String → B
  isGameOver : B → Bool
  parseUci : String → Bool

/-- One entry of the global `games` dict (source lines 62-68). -/
structure GameSession (B : Type) where
  board : B
  player_color : String
  moves : List String
  engine_strength : Int
  current_engine : String
deriving Repr, DecidableEq

/-- The global `games` dict, as an association list from game id to
session.  Keys are unique in every store the handlers construct. -/
abbrev Store (B : Type) : Type := List (String × GameSession B)

/-- Write-through update of the store: replace the binding of `id` if
present, append it otherwise (Python dict assignment). -/
def storeSet {B : Type} (games : Store B) (id : String) (s : GameSession B) :
    Store B :=
  match games with
  | [] => [(id, s)]
  | (k, v) :: rest =>
      if k = id then (k, s) :: rest else (k, v) :: storeSet rest id s

/-- Store lookup, `games[game_id]` / `game_id in games`. -/
def storeGet {B : Type} (games : Store B) (id : String) :
    Option (GameSession B) :=
  match games with
  | [] => none
  | (k, v) :: rest => if k = id then some v else storeGet rest id

/-- `get_or_create_game` (source lines 56-75): an unknown id creates a
fresh session (default board, or the supplied FEN); a known id with a FEN
has only its board replaced; a known id without a FEN is returned
unchanged.  Returns the updated store and the session the handler works
with. -/
def get_or_create_game {B : Type} (L : ChessLib B) (games : Store B)
    (game_id : String) (fen : Option String) (player_color : String)
    (engine_strength : Int) : Store B × GameSession B :=
  match storeGet games game_id with
  | none =>
      let board := match fen with
        | none => L.initial
        | some f => L.fromFen f
      let s : GameSession B :=
        ⟨board, player_color, [], engine_strength, "stockfish"⟩
      (storeSet games game_id s, s)
  | some s =>
      match fen with
      | some f =>
          let s2 : GameSession B :=
            ⟨L.fromFen f, s.player_color, s.moves, s.engine_strength,
              s.current_engine⟩
          (storeSet games game_id s2, s2)
      | none => (games, s)

/-- One successful exchange with the local Stockfish subprocess, as used
by `analyze_position_stockfish`: the multipv answer (one move and one
relative score per principal variation), the shallow relative score the
engine reports for the position after pushing each legal move, and the
full-depth relative score of the unmodified position. -/
structure SfOracle where
  multipv : List (String × RawScore)
  evalAfter : String → RawScore
  mainEval : RawScore

/-- One principal variation of the Lichess cloud-eval JSON body:
the first move of `pv['moves']` and the optional `cp` / `mate` fields. -/
structure LiPV where
  firstMove : String
  cp : Option Int
  mate : Option Int

/-- One successful exchange with the Stockfish subprocess as used by
`analyze_position_chesscom`: multipv answer plus the depth-15 score of
the unmodified position. -/
structure CcOracle where
  multipv : List (String × RawScore)
  mainEval : RawScore

/-- The top-move score normalization of the multipv loops (source lines
838-847 and 1029-1038): a mate becomes the ±10000 sentinel with the sign
of the raw mate distance, a centipawn score is taken as is. -/
def topScore (s : RawScore) : Int :=
  if s.isMate then (if 0 < s.mate then 10000 else -10000) else s.cp

/-- The per-legal-move score normalization of the exhaustive loop of
`analyze_position_stockfish` (source lines 868-877): a mate becomes the
±10000 sentinel with the sign of the raw mate distance, a centipawn
score is negated (`# Invert because it's relative to opponent`). -/
def pushedScore (s : RawScore) : Int :=
  if s.isMate then (if 0 < s.mate then 10000 else -10000) else -s.cp

/-- Builds the `MoveEvaluation` record for one raw score, shared by the
multipv loops and the exhaustive loop; `ev` is the already-normalized
evaluation. -/
def mkMoveEval {B : Type} (L : ChessLib B) (board : B) (mv : String)
    (ev : Int) (s : RawScore) : MoveEvaluation :=
  ⟨mv, ev, s.isMate, if s.isMate then some s.mate else none,
    L.isCapture board mv, L.pieceAt board mv, mv.take 2, (mv.drop 2).take 2⟩

/-- One multipv entry of the Stockfish loops (source lines 834-858 and
1025-1049). -/
def topMoveEval {B : Type} (L : ChessLib B) (board : B)
    (pv : String × RawScore) : MoveEvaluation :=
  mkMoveEval L board pv.1 (topScore pv.2) pv.2

/-- One entry of the exhaustive per-legal-move loop of
`analyze_position_stockfish` (source lines 861-888). -/
def allMoveEval {B : Type} (L : ChessLib B) (board : B) (o : SfOracle)
    (mv : String) : MoveEvaluation :=
  mkMoveEval L board mv (pushedScore (o.evalAfter mv)) (o.evalAfter mv)

/-- One entry of the unevaluated legal-move lists built by
`analyze_position_lichess` (lines 977-989) and
`analyze_position_chesscom` (lines 1051-1062): evaluation 0, no mate. -/
def zeroMoveEval {B : Type} (L : ChessLib B) (board : B) (mv : String) :
    MoveEvaluation :=
  ⟨mv, 0, false, none, L.isCapture board mv, L.pieceAt board mv,
    mv.take 2, (mv.drop 2).take 2⟩

/-- One top-move entry of `analyze_position_lichess` (lines 947-975):
a `mate` field becomes the sentinel, otherwise `cp` is used, otherwise
the evaluation stays 0. -/
def liTopEval {B : Type} (L : ChessLib B) (board : B) (pv : LiPV) :
    MoveEvaluation :=
  let ev : Int :=
    match pv.mate with
    | some m => if 0 < m then 10000 else -10000
    | none =>
        match pv.cp with
        | some c => c
        | none => 0
  ⟨pv.firstMove, ev, pv.mate.isSome, pv.mate,
    L.isCapture board pv.firstMove, L.pieceAt board pv.firstMove,
    pv.firstMove.take 2, (pv.firstMove.drop 2).take 2⟩

/-- Descending order on evaluations: `a` may come before `b`. -/
def evalGE (a b : MoveEvaluation) : Prop := b.evaluation ≤ a.evaluation

instance : DecidableRel evalGE := fun a b =>
  inferInstanceAs (Decidable (b.evaluation ≤ a.evaluation))

instance : IsTotal MoveEvaluation evalGE :=
  ⟨fun a b => le_total b.evaluation a.evaluation⟩

instance : IsTrans MoveEvaluation evalGE :=
  ⟨fun _ _ _ h h2 => le_trans h2 h⟩

/-- Python's `list.sort(key=lambda x: x.evaluation, reverse=True)`:
a stable descending sort by evaluation.  `List.insertionSort` is stable,
and all stable sorts of a total preorder produce the same list, so this
is the exact semantics of the source's sort calls (lines 894-895). -/
def pySortDesc (l : List MoveEvaluation) : List MoveEvaluation :=
  l.insertionSort evalGE

/-- `analyze_position_stockfish` (source lines 813-921).  `engineO` is
`none` when the subprocess cannot be started or the protocol exchange
errors (the `except` branch).  The session's `engine_strength` and the
`top_n`/`depth` arguments only configure the engine request, so they do
not appear in the result beyond the oracle; an empty multipv list makes
`top_moves[0]` raise, which the `except` branch turns into `None`. -/
def analyze_position_stockfish {B : Type} (L : ChessLib B)
    (games : Store B) (game_id : String) (engineO : Option SfOracle)
    (_top_n _depth : Nat) : Option EngineAnalysis :=
  match storeGet games game_id with
  | none => none
  | some g =>
      match engineO with
      | none => none
      | some o =>
          let board := g.board
          let top_moves := o.multipv.map (topMoveEval L board)
          let all_moves := (L.legalMoves board).map (allMoveEval L board o)
          let capture_moves := all_moves.filter (fun m => m.is_capture)
          let all_sorted := pySortDesc all_moves
          let cap_sorted := pySortDesc capture_moves
          let position_eval0 := topScore o.mainEval
          let position_eval :=
            if L.turnWhite board then position_eval0 else -position_eval0
          match top_moves with
          | [] => none
          | t :: _ =>
              some ⟨some t.move, top_moves, all_sorted, cap_sorted,
                position_eval, L.fen board⟩

/-- `analyze_position_lichess` (source lines 923-1008).  `web` is `none`
on timeout, a non-200 status or a raised exception; an empty or missing
`pvs` list returns `None` (line 944).  The legal moves are enumerated
with evaluation 0 and never sorted; the position evaluation is the first
principal variation's evaluation, published unchanged. -/
def analyze_position_lichess {B : Type} (L : ChessLib B) (games : Store B)
    (game_id : String) (web : Option (List LiPV)) (_top_n : Nat) :
    Option EngineAnalysis :=
  match storeGet games game_id with
  | none => none
  | some g =>
      let board := g.board
      match web with
      | none => none
      | some [] => none
      | some (pv :: rest) =>
          let top_moves := (pv :: rest).map (liTopEval L board)
          let all_moves := (L.legalMoves board).map (zeroMoveEval L board)
          let capture_moves := all_moves.filter (fun m => m.is_capture)
          let t := liTopEval L board pv
          some ⟨some t.move, top_moves, all_moves, capture_moves,
            t.evaluation, L.fen board⟩

/-- `analyze_position_chesscom` (source lines 1010-1090): Stockfish at
fixed depth 15 with multipv 3, legal moves enumerated unevaluated and
unsorted, position evaluation normalized to White by negation on Black's
turn, and `best_move` is `None` when there are no top moves. -/
def analyze_position_chesscom {B : Type} (L : ChessLib B) (games : Store B)
    (game_id : String) (engineO : Option CcOracle) : Option EngineAnalysis :=
  match storeGet games game_id with
  | none => none
  | some g =>
      match engineO with
      | none => none
      | some o =>
          let board := g.board
          let top_moves := o.multipv.map (topMoveEval L board)
          let all_moves := (L.legalMoves board).map (zeroMoveEval L board)
          let capture_moves := all_moves.filter (fun m => m.is_capture)
          let position_eval0 := topScore o.mainEval
          let position_eval :=
            if L.turnWhite board then position_eval0 else -position_eval0
          let bm : Option String :=
            match top_moves with
            | [] => none
            | t :: _ => some t.move
          some ⟨bm, top_moves, all_moves, capture_moves, position_eval,
            L.fen board⟩

/-- `get_engine_move` (source lines 748-758).  The second component is
true exactly when the unknown-engine warning is printed; the unknown
branch falls back to the Stockfish analysis with `top_n=5`. -/
def get_engine_move {B : Type} (L : ChessLib B) (games : Store B)
    (game_id : String) (engine_type : String) (sfO : Option SfOracle)
    (liO : Option (List LiPV)) (ccO : Option CcOracle) :
    Option EngineAnalysis × Bool :=
  if engine_type = "stockfish" then
    (analyze_position_stockfish L games game_id sfO 5 20, false)
  else if engine_type = "lichess" then
    (analyze_position_lichess L games game_id liO 5, false)
  else if engine_type = "chesscom" then
    (analyze_position_chesscom L games game_id ccO, false)
  else
    (analyze_position_stockfish L games game_id sfO 5 20, true)

/-- Response of the `/analyze_position` handler: HTTP status, optional
`error` field, and the serialized analysis on success. -/
structure AnalyzeResponse where
  status : Nat
  error : Option String
  analysis : Option EngineAnalysis
deriving Repr, DecidableEq

/-- `analyze_position` endpoint (source lines 782-811): optional FEN
sync through `get_or_create_game`, 404 when the id is still unknown,
dispatch on the engine name with a 400 for an unrecognized one, 500 when
the chosen adapter returns `None`. -/
def analyze_position_endpoint {B : Type} (L : ChessLib B) (games : Store B)
    (game_id : String) (engine_type : String) (top_n depth : Nat)
    (fen : Option String) (sfO : Option SfOracle) (liO : Option (List LiPV))
    (ccO : Option CcOracle) : Store B × AnalyzeResponse :=
  let games1 :=
    match fen with
    | some f => (get_or_create_game L games game_id (some f) "white" 20).1
    | none => games
  match storeGet games1 game_id with
  | none => (games1, ⟨404, some "Game not found and no FEN provided", none⟩)
  | some _ =>
      let result : Option (Option EngineAnalysis) :=
        if engine_type = "stockfish" then
          some (analyze_position_stockfish L games1 game_id sfO top_n depth)
        else if engine_type = "lichess" then
          some (analyze_position_lichess L games1 game_id liO top_n)
        else if engine_type = "chesscom" then
          some (analyze_position_chesscom L games1 game_id ccO)
        else none
      match result with
      | none => (games1, ⟨400, some "Invalid engine", none⟩)
      | some none => (games1, ⟨500, some "Analysis error", none⟩)
      | some (some a) => (games1, ⟨200, none, some a⟩)

/-- Response of the `/set_engine_strength` handler. -/
structure StrengthResponse where
  status : Nat
  success : Option Bool
  engine_strength : Option Int
  error : Option String
deriving Repr, DecidableEq

/-- `set_engine_strength` endpoint (source lines 1092-1116): the
optional FEN sync runs first, then the 404 check, then the range check
(which leaves the already-synced board in place), then the strength
update.  The success body's constant `message` field is omitted. -/
def set_engine_strength_endpoint {B : Type} (L : ChessLib B)
    (games : Store B) (game_id : String) (strength : Int)
    (fen : Option String) : Store B × StrengthResponse :=
  let games1 :=
    match fen with
    | some f => (get_or_create_game L games game_id (some f) "white" 20).1
    | none => games
  match storeGet games1 game_id with
  | none => (games1, ⟨404, none, none, some "Game not found"⟩)
  | some g =>
      if 1 ≤ strength ∧ strength ≤ 20 then
        let g2 : GameSession B :=
          ⟨g.board, g.player_color, g.moves, strength, g.current_engine⟩
        (storeSet games1 game_id g2, ⟨200, some true, some strength, none⟩)
      else
        (games1, ⟨400, none, none,
          some "Strength must be between 1 and 20"⟩)

/-- Response of the `/legal_moves` handler; each entry is
`(to, move, is_capture)`. -/
structure LegalMovesResponse where
  status : Nat
  legal_moves : Option (List (String × String × Bool))
  error : Option String
deriving Repr, DecidableEq

/-- `legal_moves` endpoint (source lines 1147-1174): optional FEN sync,
404 check, then the legal moves originating from the requested square
(matched on the from-square, i.e. the first two characters of the UCI
string).  The model assumes the supplied square name is well formed
(`chess.parse_square` raising on a malformed one is out of scope). -/
def legal_moves_endpoint {B : Type} (L : ChessLib B) (games : Store B)
    (game_id : String) (square : Option String) (fen : Option String) :
    Store B × LegalMovesResponse :=
  let games1 :=
    match fen with
    | some f => (get_or_create_game L games game_id (some f) "white" 20).1
    | none => games
  match storeGet games1 game_id with
  | none => (games1, ⟨404, none, some "Game not found"⟩)
  | some g =>
      let legal :=
        match square with
        | none => []
        | some sq =>
            ((L.legalMoves g.board).filter (fun m => m.take 2 = sq)).map
              (fun m =>
                ((m.drop 2).take 2, m, L.isCapture g.board m))
      (games1, ⟨200, some legal, none⟩)

/-- Response of the `/get_capture_moves` handler. -/
structure CaptureResponse where
  status : Nat
  capture_moves : Option (List MoveEvaluation)
  total_captures : Option Nat
  error : Option String
deriving Repr, DecidableEq

/-- `get_capture_moves` endpoint (source lines 1118-1145): optional FEN
sync, 404 check, then dispatch — note that any engine name other than
`stockfish` or `lichess` (including an unrecognized one) runs the
chesscom adapter. -/
def get_capture_moves_endpoint {B : Type} (L : ChessLib B)
    (games : Store B) (game_id : String) (engine : String)
    (fen : Option String) (sfO : Option SfOracle) (liO : Option (List LiPV))
    (ccO : Option CcOracle) : Store B × CaptureResponse :=
  let games1 :=
    match fen with
    | some f => (get_or_create_game L games game_id (some f) "white" 20).1
    | none => games
  match storeGet games1 game_id with
  | none => (games1, ⟨404, none, none, some "Game not found"⟩)
  | some _ =>
      let analysis :=
        if engine = "stockfish" then
          analyze_position_stockfish L games1 game_id sfO 5 20
        else if engine = "lichess" then
          analyze_position_lichess L games1 game_id liO 5
        else
          analyze_position_chesscom L games1 game_id ccO
      match analysis with
      | none => (games1, ⟨500, none, none, some "Analysis error"⟩)
      | some a =>
          (games1, ⟨200, some a.capture_moves, some a.capture_moves.length,
            none⟩)

/-- Response of the `/compare_engines` handler; each engine entry is
`(best_move, position_evaluation)` and is absent when that adapter
failed.  The `top_3` lists are omitted from the model. -/
structure CompareResponse where
  status : Nat
  stockfish : Option (Option String × Int)
  lichess : Option (Option String × Int)
  error : Option String
deriving Repr, DecidableEq

/-- `compare_engines` endpoint (source lines 1176-1210): optional FEN
sync, 404 check, then both the Stockfish and the Lichess analysis with
`top_n=3`. -/
def compare_engines_endpoint {B : Type} (L : ChessLib B) (games : Store B)
    (game_id : String) (fen : Option String) (sfO : Option SfOracle)
    (liO : Option (List LiPV)) : Store B × CompareResponse :=
  let games1 :=
    match fen with
    | some f => (get_or_create_game L games game_id (some f) "white" 20).1
    | none => games
  match storeGet games1 game_id with
  | none => (games1, ⟨404, none, none, some "Game not found"⟩)
  | some _ =>
      let sf := (analyze_position_stockfish L games1 game_id sfO 3 20).map
        (fun a => (a.best_move, a.position_evaluation))
      let li := (analyze_position_lichess L games1 game_id liO 3).map
        (fun a => (a.best_move, a.position_evaluation))
      (games1, ⟨200, sf, li, none⟩)

/-- Response of the `/make_move` handler.  Absent optional fields model
keys that the serialized JSON body does not contain.  `moves_history` is
serialized after the engine's reply is appended (the response dict holds
the live list object), so it reflects the final history. -/
structure MakeMoveResponse where
  status : Nat
  success : Option Bool
  player_move : Option String
  ai_move : Option String
  fen : Option String
  game_over : Option Bool
  moves_history : Option (List String)
  engine_used : Option String
  analysis : Option EngineAnalysis
  error : Option String
deriving Repr, DecidableEq

/-- The session-resolution prefix of `make_move` (source lines 704-707):
`get_or_create_game` with the optional FEN and the requested strength
(player color defaulted), then the in-place `current_engine` update. -/
def mm_sync {B : Type} (L : ChessLib B) (games : Store B)
    (game_id : String) (fen : Option String) (engine_type : String)
    (engine_strength : Int) : Store B × GameSession B :=
  let g0 := get_or_create_game L games game_id fen "white" engine_strength
  let gd : GameSession B :=
    ⟨g0.2.board, g0.2.player_color, g0.2.moves, g0.2.engine_strength,
      engine_type⟩
  (storeSet g0.1 game_id gd, gd)

/-- One committed half-move of `make_move`: push the move on the board
and append it to the history (source lines 712-713 for the player and
731-732 for the engine). -/
def mm_push {B : Type} (L : ChessLib B) (s : Store B × GameSession B)
    (game_id : String) (mv : String) : Store B × GameSession B :=
  let gd : GameSession B :=
    ⟨L.push s.2.board mv, s.2.player_color, s.2.moves ++ [mv],
      s.2.engine_strength, s.2.current_engine⟩
  (storeSet s.1 game_id gd, gd)

/-- `make_move` (source lines 694-746).  `move_uci` is `none` when the
request body has no `move` key; a missing or malformed move string makes
`chess.Move.from_uci` raise, which the `except` branch turns into a 400
whose error text is the exception message (modelled by the fixed marker
"invalid move string").  A successful engine analysis whose `best_move`
is `None` (possible for the chesscom adapter) also raises inside the
`try`, after the player's half-move was committed. -/
def make_move {B : Type} (L : ChessLib B) (games : Store B)
    (game_id : String) (move_uci : Option String) (fen : Option String)
    (engine_type : String) (engine_strength : Int) (sfO : Option SfOracle)
    (liO : Option (List LiPV)) (ccO : Option CcOracle) :
    Store B × MakeMoveResponse :=
  let s1 := mm_sync L games game_id fen engine_type engine_strength
  let parsed : Option String :=
    match move_uci with
    | none => none
    | some mv => if L.parseUci mv then some mv else none
  match parsed with
  | none =>
      (s1.1, ⟨400, none, none, none, some (L.fen s1.2.board), none, none,
        none, none, some "invalid move string"⟩)
  | some mv =>
      if mv ∈ L.legalMoves s1.2.board then
        let s2 := mm_push L s1 game_id mv
        if L.isGameOver s2.2.board then
          (s2.1, ⟨200, some true, some mv, none, some (L.fen s2.2.board),
            some true, some s2.2.moves, some engine_type, none, none⟩)
        else
          match
            (get_engine_move L s2.1 game_id engine_type sfO liO ccO).1 with
          | none =>
              (s2.1, ⟨200, some true, some mv, none,
                some (L.fen s2.2.board), some false, some s2.2.moves,
                some engine_type, none,
                some ("Engine " ++ engine_type ++
                  " failed to provide move")⟩)
          | some a =>
              match a.best_move with
              | none =>
                  (s2.1, ⟨400, none, none, none, some (L.fen s2.2.board),
                    none, none, none, none, some "invalid move string"⟩)
              | some bm =>
                  let s3 := mm_push L s2 game_id bm
                  (s3.1, ⟨200, some true, some mv, some bm,
                    some (L.fen s3.2.board), some (L.isGameOver s3.2.board),
                    some s3.2.moves, some engine_type, some a, none⟩)
      else
        (s1.1, ⟨400, none, none, none, some (L.fen s1.2.board), none, none,
          none, none, some "Illegal move"⟩)

/-- Replaying a move list from the default starting position with the
rules library's push operation. -/
def replay {B : Type} (L : ChessLib B) (moves : List String) : B :=
  moves.foldl L.push L.initial

/-- Stores reachable from the empty store purely through `make_move`
requests that never supply a FEN; the engine oracles and all request
fields may differ from call to call. -/
inductive ReachStore {B : Type} (L : ChessLib B) : Store B → Prop where
  | nil : ReachStore L []
  | step (games : Store B) (game_id : String) (move_uci : Option String)
      (engine_type : String) (engine_strength : Int) (sfO : Option SfOracle)
      (liO : Option (List LiPV)) (ccO : Option CcOracle) :
      ReachStore L games →
      ReachStore L (make_move L games game_id move_uci none engine_type
        engine_strength sfO liO ccO).1

/-- The session invariant of claim C8: every stored session's board is
the position reached by replaying its move history from the default
starting position. -/
def StoreInv {B : Type} (L : ChessLib B) (games : Store B) : Prop :=
  ∀ id g, storeGet games id = some g → g.board = replay L g.moves

/-- Modelled from the spec (section 4.1), as the refinement target for
the per-legal-move scores of the Local Search Adapter: the raw score
obtained after pushing a move is relative to the opponent and is negated
to the mover's perspective, for mate scores as well as centipawn scores,
and the result is negated once more when the analyzed position has Black
to move, so that the published value is White-relative. -/
def specPerMoveScore (s : RawScore) (blackToMove : Bool) : Int :=
  let mover : Int :=
    if s.isMate then (if 0 < s.mate then -10000 else 10000) else -s.cp
  if blackToMove then -mover else mover

/-- A tiny concrete rules library used to instantiate the abstract
interface on closed inputs: a board is the list of moves pushed so far.
Every field is executable, so handler runs on it reduce by `decide`. -/
def wlib : ChessLib (List String) where
  initial := []
  fromFen f := [f]
  fen b := String.intercalate "," b
  turnWhite b := b.length % 2 == 0
  legalMoves b := if b.length ≤ 2 then ["e2e4", "d5e4"] else []
  isCapture _ mv := mv == "d5e4"
  pieceAt _ _ := "P"
  push b mv := b ++ [mv]
  isGameOver b := decide (3 ≤ b.length)
  parseUci mv := mv.length == 4

/-- A one-session store used to instantiate the theorems on closed
inputs: game "g" at the fresh `wlib` board. -/
def demoStore : Store (List String) :=
  [("g", ⟨[], "white", [], 20, "stockfish"⟩)]

/-- A Stockfish oracle whose shallow evaluation reports a mate for the
opponent after every pushed move. -/
def c1oracle : SfOracle :=
  ⟨[("e2e4", ⟨false, 0, 0⟩)], fun _ => ⟨true, 1, 0⟩, ⟨false, 0, 0⟩⟩

/-- A Stockfish oracle with distinct centipawn scores per pushed move. -/
def c3oracle : SfOracle :=
  ⟨[("e2e4", ⟨false, 0, 30⟩)],
    fun mv => if mv = "d5e4" then ⟨false, 0, 50⟩ else ⟨false, 0, -20⟩,
    ⟨false, 0, 10⟩⟩

/-- The concrete analysis the Local Search Adapter produces on
`demoStore` with `c3oracle`. -/
def c3val : EngineAnalysis :=
  (analyze_position_stockfish wlib demoStore "g" (some c3oracle) 5
    20).getD ⟨none, [], [], [], 0, ""⟩

/-- The first entry of that analysis's evaluated legal-move list. -/
def c1me : MoveEvaluation :=
  c3val.all_legal_moves.headD ⟨"", 0, false, none, false, "", "", ""⟩

theorem storeGet_storeSet_self {B : Type} (games : Store B) (id : String)
    (s : GameSession B) : storeGet (storeSet games id s) id = some s := by
  induction games with
  | nil => simp [storeSet, storeGet]
  | cons kv rest ih =>
      by_cases h : kv.1 = id <;> simp [storeSet, storeGet, h, ih]

theorem storeGet_storeSet_ne {B : Type} (games : Store B) (id k : String)
    (s : GameSession B) (h : k ≠ id) :
    storeGet (storeSet games id s) k = storeGet games k := by
  induction games with
  | nil => simp [storeSet, storeGet, h, Ne.symm h]
  | cons kv rest ih =>
      by_cases h2 : kv.1 = id
      · subst h2
        simp [storeSet, storeGet, Ne.symm h]
      · by_cases h3 : kv.1 = k <;>
          simp [storeSet, storeGet, h, h2, h3, ih]

theorem orderedInsert_all {α : Type} (r : α → α → Prop) [DecidableRel r]
    (x : α) (l : List α) (h : ∀ z ∈ l, r x z) :
    List.orderedInsert r x l = x :: l := by
  cases l with
  | nil => rfl
  | cons z zs =>
      exact List.orderedInsert_of_le r zs (h z (List.mem_cons_self z zs))

/-- Inserting into a sorted list and filtering commute: the element lands
in front of the same surviving elements either way. -/
theorem filter_orderedInsert {α : Type} (r : α → α → Prop) [DecidableRel r]
    [IsTrans α r] (p : α → Bool) (x : α) :
    ∀ l : List α, l.Sorted r →
      (List.orderedInsert r x l).filter p =
        if p x then List.orderedInsert r x (l.filter p) else l.filter p := by
  intro l
  induction l with
  | nil =>
      intro _
      by_cases hpx : p x <;> simp [List.orderedInsert, hpx]
  | cons y ys ih =>
      intro hl
      by_cases hxy : r x y
      · rw [List.orderedInsert_of_le r ys hxy]
        by_cases hpx : p x
        · rw [List.filter_cons_of_pos hpx, if_pos hpx,
            orderedInsert_all r x ((y :: ys).filter p)]
          intro z hz
          rw [List.mem_filter] at hz
          rcases List.mem_cons.1 hz.1 with hz1 | hz1
          · exact hz1 ▸ hxy
          · exact Trans.trans hxy (List.rel_of_sorted_cons hl z hz1)
        · rw [List.filter_cons_of_neg hpx, if_neg hpx]
      · have hins : List.orderedInsert r x (y :: ys) =
            y :: List.orderedInsert r x ys := by
          simp [List.orderedInsert, hxy]
        rw [hins]
        by_cases hpy : p y
        · rw [List.filter_cons_of_pos hpy, List.filter_cons_of_pos hpy,
            ih hl.of_cons]
          by_cases hpx : p x
          · rw [if_pos hpx, if_pos hpx,
              List.orderedInsert, if_neg hxy]
          · rw [if_neg hpx, if_neg hpx]
        · rw [List.filter_cons_of_neg hpy, List.filter_cons_of_neg hpy,
            ih hl.of_cons]

/-- A stable sort commutes with `filter`. -/
theorem filter_insertionSort {α : Type} (r : α → α → Prop) [DecidableRel r]
    [IsTotal α r] [IsTrans α r] (p : α → Bool) (l : List α) :
    (l.insertionSort r).filter p = (l.filter p).insertionSort r := by
  induction l with
  | nil => rfl
  | cons x xs ih =>
      show (List.orderedInsert r x (xs.insertionSort r)).filter p = _
      rw [filter_orderedInsert r p x _ (List.sorted_insertionSort r xs), ih]
      by_cases hpx : p x
      · rw [if_pos hpx, List.filter_cons_of_pos hpx]
        rfl
      · rw [if_neg hpx, List.filter_cons_of_neg hpx]

/-- Reduction of `get_or_create_game` on an existing session with a
FEN. -/
theorem getOrCreate_some_fen {B : Type} (L : ChessLib B) (games : Store B)
    (id f pc : String) (es : Int) (g : GameSession B)
    (h : storeGet games id = some g) :
    get_or_create_game L games id (some f) pc es =
      (storeSet games id
        ⟨L.fromFen f, g.player_color, g.moves, g.engine_strength,
          g.current_engine⟩,
        ⟨L.fromFen f, g.player_color, g.moves, g.engine_strength,
          g.current_engine⟩) := by
  unfold get_or_create_game
  rw [h]

/-- C9: when `get_or_create_game` receives a FEN for an existing
session, only the board field is replaced; move history, player color,
engine strength and current engine are untouched; sessions under other
ids are untouched; and the player-color and strength arguments of the
call are ignored for existing sessions. -/
theorem getOrCreate_existing_replaces_only_board {B : Type}
    (L : ChessLib B) (games : Store B) (id f pc pc2 : String)
    (es es2 : Int) (g : GameSession B) (h : storeGet games id = some g) :
    (get_or_create_game L games id (some f) pc es).2 =
      ⟨L.fromFen f, g.player_color, g.moves, g.engine_strength,
        g.current_engine⟩ ∧
    storeGet (get_or_create_game L games id (some f) pc es).1 id =
      some ⟨L.fromFen f, g.player_color, g.moves, g.engine_strength,
        g.current_engine⟩ ∧
    (∀ k, k ≠ id →
      storeGet (get_or_create_game L games id (some f) pc es).1 k =
        storeGet games k) ∧
    get_or_create_game L games id (some f) pc es =
      get_or_create_game L games id (some f) pc2 es2 := by
  unfold get_or_create_game
  rw [h]
  exact ⟨rfl, storeGet_storeSet_self _ _ _,
    fun k hk => storeGet_storeSet_ne _ _ _ _ hk, rfl⟩

theorem getOrCreate_existing_witness :
    (get_or_create_game wlib
        [("g", ⟨["x"], "black", ["a1a2"], 7, "lichess"⟩)] "g" (some "y")
        "white" 20).2 = ⟨["y"], "black", ["a1a2"], 7, "lichess"⟩ :=
  (getOrCreate_existing_replaces_only_board wlib
    [("g", ⟨["x"], "black", ["a1a2"], 7, "lichess"⟩)] "g" "y" "white"
    "black" 20 3 ⟨["x"], "black", ["a1a2"], 7, "lichess"⟩ (by decide)).1

/-- C10: `set_engine_strength` with a FEN and an out-of-range strength
for an existing session replaces the board from the FEN first and only
then fails the range check: the 400 response leaves the stored strength
unchanged but the board already mutated. -/
theorem setStrength_invalid_after_fen_sync {B : Type} (L : ChessLib B)
    (games : Store B) (id f : String) (strength : Int) (g : GameSession B)
    (h : storeGet games id = some g)
    (hs : ¬(1 ≤ strength ∧ strength ≤ 20)) :
    (set_engine_strength_endpoint L games id strength (some f)).2 =
      ⟨400, none, none, some "Strength must be between 1 and 20"⟩ ∧
    storeGet (set_engine_strength_endpoint L games id strength (some f)).1
        id =
      some ⟨L.fromFen f, g.player_color, g.moves, g.engine_strength,
        g.current_engine⟩ := by
  have hsync := getOrCreate_some_fen L games id f "white" 20 g h
  unfold set_engine_strength_endpoint
  simp only [hsync, storeGet_storeSet_self, if_neg hs]
  exact ⟨trivial, trivial⟩

theorem setStrength_invalid_witness :
    (set_engine_strength_endpoint wlib demoStore "g" 25 (some "y")).2 =
      ⟨400, none, none, some "Strength must be between 1 and 20"⟩ ∧
    storeGet
        (set_engine_strength_endpoint wlib demoStore "g" 25 (some "y")).1
        "g" =
      some ⟨["y"], "white", [], 20, "stockfish"⟩ :=
  setStrength_invalid_after_fen_sync wlib demoStore "g" "y" 25
    ⟨[], "white", [], 20, "stockfish"⟩ (by decide) (by decide)

/-- C2 (amended): the lookup endpoints `analyze_position`,
`set_engine_strength`, `legal_moves`, `get_capture_moves` and
`compare_engines` fail closed with a 404 and an unchanged store when the
game id is unknown and no FEN is supplied. -/
theorem lookup_endpoints_fail_closed {B : Type} (L : ChessLib B)
    (games : Store B) (id : String) (h : storeGet games id = none)
    (et : String) (tn d : Nat) (sq : Option String) (strength : Int)
    (sfO : Option SfOracle) (liO : Option (List LiPV))
    (ccO : Option CcOracle) :
    analyze_position_endpoint L games id et tn d none sfO liO ccO =
      (games, ⟨404, some "Game not found and no FEN provided", none⟩) ∧
    set_engine_strength_endpoint L games id strength none =
      (games, ⟨404, none, none, some "Game not found"⟩) ∧
    legal_moves_endpoint L games id sq none =
      (games, ⟨404, none, some "Game not found"⟩) ∧
    get_capture_moves_endpoint L games id et none sfO liO ccO =
      (games, ⟨404, none, none, some "Game not found"⟩) ∧
    compare_engines_endpoint L games id none sfO liO =
      (games, ⟨404, none, none, some "Game not found"⟩) := by
  unfold analyze_position_endpoint set_engine_strength_endpoint
    legal_moves_endpoint get_capture_moves_endpoint
    compare_engines_endpoint
  simp only [h]
  exact ⟨trivial, trivial, trivial, trivial, trivial⟩

theorem lookup_endpoints_fail_closed_witness :
    analyze_position_endpoint wlib [] "g" "stockfish" 5 20 none none none
        none =
      ([], ⟨404, some "Game not found and no FEN provided", none⟩) :=
  (lookup_endpoints_fail_closed wlib [] "g" (by decide) "stockfish" 5 20
    none 20 none none none).1

/-- C2 counterexample: `make_move` with an unknown game id and no FEN
does not fail with a 404 — it fabricates a fresh session from the
default starting position and answers 200. -/
theorem make_move_fabricates_session :
    (make_move wlib [] "g" (some "e2e4") none "stockfish" 20 none none
        none).2.status = 200 ∧
    storeGet (make_move wlib [] "g" (some "e2e4") none "stockfish" 20 none
        none none).1 "g" =
      some ⟨["e2e4"], "white", ["e2e4"], 20, "stockfish"⟩ := by
  exact ⟨rfl, by decide⟩

/-- C7 (amended): `get_engine_move` falls back to the Stockfish analysis
with a warning on an unrecognized engine name, but the
`/analyze_position` endpoint instead rejects the request with a 400
"Invalid engine", and `/get_capture_moves` routes any name that is not
"stockfish" or "lichess" to the chesscom adapter. -/
theorem unknown_engine_policy {B : Type} (L : ChessLib B) (games : Store B)
    (id et : String) (hne1 : et ≠ "stockfish") (hne2 : et ≠ "lichess")
    (hne3 : et ≠ "chesscom") (g : GameSession B)
    (hg : storeGet games id = some g) (tn d : Nat) (sfO : Option SfOracle)
    (liO : Option (List LiPV)) (ccO : Option CcOracle) :
    get_engine_move L games id et sfO liO ccO =
      (analyze_position_stockfish L games id sfO 5 20, true) ∧
    (analyze_position_endpoint L games id et tn d none sfO liO ccO) =
      (games, ⟨400, some "Invalid engine", none⟩) ∧
    get_capture_moves_endpoint L games id et none sfO liO ccO =
      (games,
        match analyze_position_chesscom L games id ccO with
        | none => ⟨500, none, none, some "Analysis error"⟩
        | some a =>
            ⟨200, some a.capture_moves, some a.capture_moves.length,
              none⟩) := by
  unfold get_engine_move analyze_position_endpoint
    get_capture_moves_endpoint
  simp only [hg, if_neg hne1, if_neg hne2, if_neg hne3]
  refine ⟨trivial, trivial, ?_⟩
  cases analyze_position_chesscom L games id ccO <;> rfl

theorem unknown_engine_policy_witness :
    get_engine_move wlib demoStore "g" "foo" none none none =
      (analyze_position_stockfish wlib demoStore "g" none 5 20, true) :=
  (unknown_engine_policy wlib demoStore "g" "foo" (by decide) (by decide)
    (by decide) ⟨[], "white", [], 20, "stockfish"⟩ (by decide) 5 20 none
    none none).1

/-- C7 counterexample: a request to `/analyze_position` naming an
unrecognized engine fails with a 400 error instead of falling back to
the Local Search Adapter. -/
theorem analyze_endpoint_rejects_unknown_engine :
    (analyze_position_endpoint wlib demoStore "g" "foo" 5 20 none none
        none none).2 = ⟨400, some "Invalid engine", none⟩ := by
  decide

/-- C4: when the player's move is legal, the resulting position is not
game over, and the selected engine produces no analysis, `make_move`
still commits the player's half-move (board pushed, history appended,
session stored) and returns HTTP 200 with `success=true` and an
explanatory error note, omitting the engine's reply move. -/
theorem make_move_engine_unavailable {B : Type} (L : ChessLib B)
    (games : Store B) (id mv : String) (fen : Option String) (et : String)
    (st : Int) (sfO : Option SfOracle) (liO : Option (List LiPV))
    (ccO : Option CcOracle) (hp : L.parseUci mv = true)
    (hleg : mv ∈ L.legalMoves (mm_sync L games id fen et st).2.board)
    (hgo : L.isGameOver
      (mm_push L (mm_sync L games id fen et st) id mv).2.board = false)
    (heng : (get_engine_move L
      (mm_push L (mm_sync L games id fen et st) id mv).1 id et sfO liO
      ccO).1 = none) :
    make_move L games id (some mv) fen et st sfO liO ccO =
      ((mm_push L (mm_sync L games id fen et st) id mv).1,
        ⟨200, some true, some mv, none,
          some (L.fen
            (L.push (mm_sync L games id fen et st).2.board mv)),
          some false, some ((mm_sync L games id fen et st).2.moves ++ [mv]),
          some et, none,
          some ("Engine " ++ et ++ " failed to provide move")⟩) ∧
    storeGet (make_move L games id (some mv) fen et st sfO liO ccO).1 id =
      some ⟨L.push (mm_sync L games id fen et st).2.board mv,
        (mm_sync L games id fen et st).2.player_color,
        (mm_sync L games id fen et st).2.moves ++ [mv],
        (mm_sync L games id fen et st).2.engine_strength, et⟩ := by
  have hmain : make_move L games id (some mv) fen et st sfO liO ccO =
      ((mm_push L (mm_sync L games id fen et st) id mv).1,
        ⟨200, some true, some mv, none,
          some (L.fen
            (L.push (mm_sync L games id fen et st).2.board mv)),
          some false, some ((mm_sync L games id fen et st).2.moves ++ [mv]),
          some et, none,
          some ("Engine " ++ et ++ " failed to provide move")⟩) := by
    unfold make_move
    simp only [hp, if_true, if_pos hleg, hgo, heng]
    rfl
  refine ⟨hmain, ?_⟩
  rw [hmain]
  have : (mm_push L (mm_sync L games id fen et st) id mv).1 =
      storeSet (mm_sync L games id fen et st).1 id
        ⟨L.push (mm_sync L games id fen et st).2.board mv,
          (mm_sync L games id fen et st).2.player_color,
          (mm_sync L games id fen et st).2.moves ++ [mv],
          (mm_sync L games id fen et st).2.engine_strength,
          (mm_sync L games id fen et st).2.current_engine⟩ := rfl
  rw [this, storeGet_storeSet_self]
  have hce : (mm_sync L games id fen et st).2.current_engine = et := rfl
  rw [hce]

theorem make_move_engine_unavailable_witness :
    make_move wlib [] "g" (some "e2e4") none "stockfish" 20 none none
        none =
      ([("g", ⟨["e2e4"], "white", ["e2e4"], 20, "stockfish"⟩)],
        ⟨200, some true, some "e2e4", none, some "e2e4", some false,
          some ["e2e4"], some "stockfish", none,
          some "Engine stockfish failed to provide move"⟩) := by
  have h := (make_move_engine_unavailable wlib [] "g" "e2e4" none
    "stockfish" 20 none none none (by decide) (by decide) (by decide)
    (by decide)).1
  rw [h]
  decide

/-- C5 counterexample: a `make_move` request carrying both a FEN and a
move that is illegal in the synced position answers 400 "Illegal move",
yet the call has replaced the session's board from the FEN, so the board
is not left unchanged by the call. -/
theorem illegal_move_request_resyncs_board :
    (make_move wlib [("g", ⟨["x"], "white", [], 20, "stockfish"⟩)] "g"
        (some "a1a2") (some "y") "stockfish" 20 none none none).2.status =
      400 ∧
    (make_move wlib [("g", ⟨["x"], "white", [], 20, "stockfish"⟩)] "g"
        (some "a1a2") (some "y") "stockfish" 20 none none none).2.error =
      some "Illegal move" ∧
    storeGet (make_move wlib [("g", ⟨["x"], "white", [], 20, "stockfish"⟩)]
        "g" (some "a1a2") (some "y") "stockfish" 20 none none none).1 "g" =
      some ⟨["y"], "white", [], 20, "stockfish"⟩ ∧
    (["y"] : List String) ≠ ["x"] := by
  decide

/-- C5 (amended): a well-formed move that is illegal in the session's
current (post-sync) board makes `make_move` answer 400 with error
"Illegal move" and the current FEN; the move history is never touched
and no move is pushed — the session differs from its pre-call state only
by the optional FEN resync and the `current_engine` tag; in particular,
with no FEN in the request the board of an existing session is exactly
its pre-call board. -/
theorem make_move_illegal {B : Type} (L : ChessLib B) (games : Store B)
    (id mv : String) (fen : Option String) (et : String) (st : Int)
    (sfO : Option SfOracle) (liO : Option (List LiPV))
    (ccO : Option CcOracle) (hp : L.parseUci mv = true)
    (hleg : mv ∉ L.legalMoves (mm_sync L games id fen et st).2.board) :
    make_move L games id (some mv) fen et st sfO liO ccO =
      ((mm_sync L games id fen et st).1,
        ⟨400, none, none, none,
          some (L.fen (mm_sync L games id fen et st).2.board), none, none,
          none, none, some "Illegal move"⟩) ∧
    storeGet (mm_sync L games id fen et st).1 id =
      some (mm_sync L games id fen et st).2 ∧
    (mm_sync L games id fen et st).2.moves =
      (get_or_create_game L games id fen "white" st).2.moves ∧
    (fen = none → ∀ g, storeGet games id = some g →
      (mm_sync L games id fen et st).2.board = g.board ∧
      (mm_sync L games id fen et st).2.moves = g.moves) := by
  refine ⟨?_, ?_, rfl, ?_⟩
  · unfold make_move
    simp only [hp, if_true, if_neg hleg]
  · exact storeGet_storeSet_self _ _ _
  · rintro rfl g hg
    have hsync : mm_sync L games id none et st =
        (storeSet games id
          ⟨g.board, g.player_color, g.moves, g.engine_strength, et⟩,
          ⟨g.board, g.player_color, g.moves, g.engine_strength, et⟩) := by
      unfold mm_sync get_or_create_game
      rw [hg]
    rw [hsync]
    exact ⟨rfl, rfl⟩

theorem make_move_illegal_witness :
    make_move wlib [("g", ⟨["x", "y", "z"], "white", [], 20, "stockfish"⟩)]
        "g" (some "a1a2") none "stockfish" 20 none none none =
      ([("g", ⟨["x", "y", "z"], "white", [], 20, "stockfish"⟩)],
        ⟨400, none, none, none, some "x,y,z", none, none, none, none,
          some "Illegal move"⟩) := by
  have h := (make_move_illegal wlib
    [("g", ⟨["x", "y", "z"], "white", [], 20, "stockfish"⟩)] "g" "a1a2"
    none "stockfish" 20 none none none (by decide) (by decide)).1
  rw [h]
  decide

/-- C3: every analysis any of the three adapters returns has its
evaluated legal-move list sorted descending by evaluation, its capture
list sorted descending by evaluation, and the capture list is exactly
the `is_capture` subsequence of the legal-move list, relative order
preserved (for the Stockfish adapter this relies on the stability of
Python's sort; for the other two every evaluation is 0, so enumeration
order is trivially sorted). -/
theorem analysis_sorted_captures {B : Type} (L : ChessLib B)
    (games : Store B) (id : String) :
    (∀ (sfO : Option SfOracle) (tn d : Nat) (a : EngineAnalysis),
      analyze_position_stockfish L games id sfO tn d = some a →
      a.all_legal_moves.Sorted evalGE ∧ a.capture_moves.Sorted evalGE ∧
      a.capture_moves =
        a.all_legal_moves.filter (fun m => m.is_capture)) ∧
    (∀ (web : Option (List LiPV)) (tn : Nat) (a : EngineAnalysis),
      analyze_position_lichess L games id web tn = some a →
      a.all_legal_moves.Sorted evalGE ∧ a.capture_moves.Sorted evalGE ∧
      a.capture_moves =
        a.all_legal_moves.filter (fun m => m.is_capture)) ∧
    (∀ (ccO : Option CcOracle) (a : EngineAnalysis),
      analyze_position_chesscom L games id ccO = some a →
      a.all_legal_moves.Sorted evalGE ∧ a.capture_moves.Sorted evalGE ∧
      a.capture_moves =
        a.all_legal_moves.filter (fun m => m.is_capture)) := by
  have hzero : ∀ (b : B),
      ((L.legalMoves b).map (zeroMoveEval L b)).Sorted evalGE := by
    intro b
    apply List.pairwise_of_forall_mem_list
    intro x hx y hy
    rcases List.mem_map.1 hx with ⟨mx, _, rfl⟩
    rcases List.mem_map.1 hy with ⟨my, _, rfl⟩
    exact le_of_eq rfl
  refine ⟨?_, ?_, ?_⟩
  · intro sfO tn d a h
    cases hg : storeGet games id with
    | none =>
        simp only [analyze_position_stockfish, hg] at h
        exact Option.noConfusion h
    | some g =>
        cases sfO with
        | none =>
            simp only [analyze_position_stockfish, hg] at h
            exact Option.noConfusion h
        | some o =>
            simp only [analyze_position_stockfish, hg] at h
            cases hm : o.multipv.map (topMoveEval L g.board) with
            | nil => rw [hm] at h; cases h
            | cons t rest =>
                rw [hm] at h
                cases h
                refine ⟨List.sorted_insertionSort evalGE _,
                  List.sorted_insertionSort evalGE _,
                  (filter_insertionSort evalGE _ _).symm⟩
  · intro web tn a h
    cases hg : storeGet games id with
    | none =>
        simp only [analyze_position_lichess, hg] at h
        exact Option.noConfusion h
    | some g =>
        match web with
        | none =>
            simp only [analyze_position_lichess, hg] at h
            exact Option.noConfusion h
        | some [] =>
            simp only [analyze_position_lichess, hg] at h
            exact Option.noConfusion h
        | some (pv :: rest) =>
            simp only [analyze_position_lichess, hg] at h
            cases h
            exact ⟨hzero g.board, (hzero g.board).filter _, rfl⟩
  · intro ccO a h
    cases hg : storeGet games id with
    | none =>
        simp only [analyze_position_chesscom, hg] at h
        exact Option.noConfusion h
    | some g =>
        cases ccO with
        | none =>
            simp only [analyze_position_chesscom, hg] at h
            exact Option.noConfusion h
        | some o =>
            simp only [analyze_position_chesscom, hg] at h
            cases h
            exact ⟨hzero g.board, (hzero g.board).filter _, rfl⟩

theorem analysis_sorted_captures_witness :
    c3val.all_legal_moves.Sorted evalGE ∧
    c3val.capture_moves.Sorted evalGE ∧
    c3val.capture_moves =
      c3val.all_legal_moves.filter (fun m => m.is_capture) :=
  (analysis_sorted_captures wlib demoStore "g").1 (some c3oracle) 5 20
    c3val (by decide)

/-- C1 (amended): in the exhaustive per-legal-move loop of the Local
Search Adapter, every published evaluation is computed from the raw
score reported after pushing the move by negating only the centipawn
case; a raw mate score keeps the ±10000 sentinel sign of the raw mate
distance (which is relative to the opponent) without negation, and no
further negation toward White's perspective is applied to per-move
scores for any side to move (every legal move appears in the published
list with exactly this value). -/
theorem stockfish_per_move_scores {B : Type} (L : ChessLib B)
    (games : Store B) (id : String) (g : GameSession B) (o : SfOracle)
    (tn d : Nat) (a : EngineAnalysis) (hg : storeGet games id = some g)
    (h : analyze_position_stockfish L games id (some o) tn d = some a) :
    (∀ me ∈ a.all_legal_moves,
      me.evaluation =
        (if (o.evalAfter me.move).isMate then
          (if 0 < (o.evalAfter me.move).mate then 10000 else -10000)
        else -(o.evalAfter me.move).cp)) ∧
    ∀ mv ∈ L.legalMoves g.board, ∃ me ∈ a.all_legal_moves, me.move = mv := by
  simp only [analyze_position_stockfish, hg] at h
  cases hm : o.multipv.map (topMoveEval L g.board) with
  | nil => rw [hm] at h; cases h
  | cons t rest =>
      rw [hm] at h
      cases h
      constructor
      · intro me hme
        have hmem : me ∈ (L.legalMoves g.board).map (allMoveEval L g.board o) := by
          have := (List.mem_insertionSort evalGE).1 hme
          exact this
        rcases List.mem_map.1 hmem with ⟨mv, _, rfl⟩
        rfl
      · intro mv hmv
        exact ⟨allMoveEval L g.board o mv,
          (List.mem_insertionSort evalGE).2 (List.mem_map_of_mem _ hmv),
          rfl⟩

theorem stockfish_per_move_scores_witness :
    c1me.evaluation =
      (if (c3oracle.evalAfter c1me.move).isMate then
        (if 0 < (c3oracle.evalAfter c1me.move).mate then 10000 else -10000)
      else -(c3oracle.evalAfter c1me.move).cp) :=
  (stockfish_per_move_scores wlib demoStore "g"
    ⟨[], "white", [], 20, "stockfish"⟩ c3oracle 5 20 c3val (by decide)
    (by decide)).1 c1me (by decide)

/-- C1 counterexample: with White to move and the engine reporting, for
the position after a pushed candidate move, a mate in favour of the side
then to move (the opponent), the loop publishes +10000 for that move,
while the specified normalization (negate to the mover's perspective,
then negate again only with Black to move) requires -10000. -/
theorem stockfish_mate_score_not_negated :
    ((analyze_position_stockfish wlib demoStore "g" (some c1oracle) 5
        20).map (fun a => a.all_legal_moves.map (fun m => m.evaluation))) =
      some [10000, 10000] ∧
    wlib.turnWhite [] = true ∧
    specPerMoveScore ⟨true, 1, 0⟩ false = -10000 ∧
    (10000 : Int) ≠ -10000 := by
  decide

theorem replay_append {B : Type} (L : ChessLib B) (ms : List String)
    (mv : String) : replay L (ms ++ [mv]) = L.push (replay L ms) mv := by
  unfold replay
  rw [List.foldl_append]
  rfl

theorem storeInv_set {B : Type} (L : ChessLib B) (games : Store B)
    (gid : String) (gd : GameSession B) (inv : StoreInv L games)
    (hgd : gd.board = replay L gd.moves) :
    StoreInv L (storeSet games gid gd) := by
  intro id g hg
  by_cases h : id = gid
  · subst h
    rw [storeGet_storeSet_self] at hg
    cases hg
    exact hgd
  · rw [storeGet_storeSet_ne _ _ _ _ h] at hg
    exact inv id g hg

theorem mm_sync_none_inv {B : Type} (L : ChessLib B) (games : Store B)
    (gid et : String) (st : Int) (inv : StoreInv L games) :
    (mm_sync L games gid none et st).2.board =
      replay L (mm_sync L games gid none et st).2.moves ∧
    StoreInv L (mm_sync L games gid none et st).1 := by
  cases hg : storeGet games gid with
  | none =>
      have hs : mm_sync L games gid none et st =
          (storeSet
            (storeSet games gid ⟨L.initial, "white", [], st, "stockfish"⟩)
            gid ⟨L.initial, "white", [], st, et⟩,
            ⟨L.initial, "white", [], st, et⟩) := by
        unfold mm_sync get_or_create_game
        rw [hg]
      rw [hs]
      exact ⟨rfl,
        storeInv_set L _ gid _ (storeInv_set L games gid _ inv rfl) rfl⟩
  | some s =>
      have hs : mm_sync L games gid none et st =
          (storeSet games gid
            ⟨s.board, s.player_color, s.moves, s.engine_strength, et⟩,
            ⟨s.board, s.player_color, s.moves, s.engine_strength, et⟩) := by
        unfold mm_sync get_or_create_game
        rw [hg]
      have hb : s.board = replay L s.moves := inv gid s hg
      rw [hs]
      exact ⟨hb, storeInv_set L games gid _ inv hb⟩

theorem mm_push_inv {B : Type} (L : ChessLib B)
    (s : Store B × GameSession B) (gid mv : String)
    (hb : s.2.board = replay L s.2.moves) (hs : StoreInv L s.1) :
    (mm_push L s gid mv).2.board =
      replay L (mm_push L s gid mv).2.moves ∧
    StoreInv L (mm_push L s gid mv).1 := by
  have hb2 : L.push s.2.board mv = replay L (s.2.moves ++ [mv]) := by
    rw [replay_append, hb]
  exact ⟨hb2, storeInv_set L s.1 gid _ hs hb2⟩

theorem make_move_store_inv {B : Type} (L : ChessLib B) (games : Store B)
    (gid : String) (mvu : Option String) (et : String) (st : Int)
    (sfO : Option SfOracle) (liO : Option (List LiPV))
    (ccO : Option CcOracle) (inv : StoreInv L games) :
    StoreInv L (make_move L games gid mvu none et st sfO liO ccO).1 := by
  obtain ⟨hb1, hs1⟩ := mm_sync_none_inv L games gid et st inv
  cases mvu with
  | none => exact hs1
  | some mv =>
      by_cases hp : L.parseUci mv = true
      · by_cases hleg :
            mv ∈ L.legalMoves (mm_sync L games gid none et st).2.board
        · obtain ⟨hb2, hs2⟩ := mm_push_inv L _ gid mv hb1 hs1
          cases hgo : L.isGameOver
              (mm_push L (mm_sync L games gid none et st) gid mv).2.board
              with
          | true =>
              unfold make_move
              simp only [hp, if_true, if_pos hleg, hgo]
              exact hs2
          | false =>
              cases heng : (get_engine_move L
                  (mm_push L (mm_sync L games gid none et st) gid mv).1 gid
                  et sfO liO ccO).1 with
              | none =>
                  unfold make_move
                  simp only [hp, if_true, if_pos hleg, hgo, heng]
                  exact hs2
              | some a =>
                  cases hbm : a.best_move with
                  | none =>
                      unfold make_move
                      simp only [hp, if_true, if_pos hleg, hgo, heng, hbm]
                      exact hs2
                  | some bm =>
                      obtain ⟨hb3, hs3⟩ := mm_push_inv L _ gid bm hb2 hs2
                      unfold make_move
                      simp only [hp, if_true, if_pos hleg, hgo, heng, hbm]
                      exact hs3
        · unfold make_move
          simp only [hp, if_true, if_neg hleg]
          exact hs1
      · unfold make_move
        simp only [Bool.not_eq_true] at hp
        simp only [hp, Bool.false_eq_true, if_false]
        exact hs1

/-- Every store reachable purely through FEN-less `make_move` requests
satisfies the replay invariant. -/
theorem reach_store_inv {B : Type} (L : ChessLib B) (games : Store B)
    (h : ReachStore L games) : StoreInv L games := by
  induction h with
  | nil => intro id2 g2 hg2; exact Option.noConfusion hg2
  | step games2 gid mvu et st sfO liO ccO hr ih =>
      exact make_move_store_inv L games2 gid mvu et st sfO liO ccO ih

/-- C8: in every store reachable purely through `make_move` requests
that never supply a FEN, replaying any session's stored move history
from the default starting position reproduces exactly the current
board's FEN. -/
theorem reachable_board_replays_history {B : Type} (L : ChessLib B)
    (games : Store B) (h : ReachStore L games) (id : String)
    (g : GameSession B) (hg : storeGet games id = some g) :
    L.fen g.board = L.fen (replay L g.moves) := by
  rw [reach_store_inv L games h id g hg]

theorem reachable_board_replays_history_witness :
    wlib.fen (["e2e4"] : List String) = wlib.fen (replay wlib ["e2e4"]) :=
  reachable_board_replays_history wlib
    (make_move wlib [] "g" (some "e2e4") none "stockfish" 20 none none
      none).1
    (ReachStore.step [] "g" (some "e2e4") "stockfish" 20 none none none
      ReachStore.nil)
    "g" ⟨["e2e4"], "white", ["e2e4"], 20, "stockfish"⟩ (by decide)

/-- Supporting observation for the perspective invariant (claim C6): the
Stockfish and chesscom adapters negate the full-position score exactly
when Black is to move (turning a side-to-move-relative engine score into
a White-relative one), while the Lichess adapter publishes the first
principal variation's score with no side-to-move correction at all —
whether that published value is White-relative is a property of the
external cloud service's sign convention, not of this code. -/
theorem position_eval_normalization {B : Type} (L : ChessLib B)
    (games : Store B) (id : String) (g : GameSession B)
    (hg : storeGet games id = some g) :
    (∀ (o : SfOracle) (tn d : Nat) (a : EngineAnalysis),
      analyze_position_stockfish L games id (some o) tn d = some a →
      a.position_evaluation =
        (if L.turnWhite g.board then topScore o.mainEval
         else -(topScore o.mainEval))) ∧
    (∀ (o : CcOracle) (a : EngineAnalysis),
      analyze_position_chesscom L games id (some o) = some a →
      a.position_evaluation =
        (if L.turnWhite g.board then topScore o.mainEval
         else -(topScore o.mainEval))) ∧
    (∀ (pv : LiPV) (rest : List LiPV) (tn : Nat) (a : EngineAnalysis),
      analyze_position_lichess L games id (some (pv :: rest)) tn = some a →
      a.position_evaluation = (liTopEval L g.board pv).evaluation) := by
  refine ⟨?_, ?_, ?_⟩
  · intro o tn d a h
    simp only [analyze_position_stockfish, hg] at h
    cases hm : o.multipv.map (topMoveEval L g.board) with
    | nil => rw [hm] at h; cases h
    | cons t rest =>
        rw [hm] at h
        cases h
        rfl
  · intro o a h
    simp only [analyze_position_chesscom, hg] at h
    cases h
    rfl
  · intro pv rest tn a h
    simp only [analyze_position_lichess, hg] at h
    cases h
    rfl

end ChessAPI
